import Mathlib

/-!
Verification of the tremor-runtime connector substrate specification
against the source of the repository.

The development shallowly embeds the relevant parts of the Rust source:

* `src/src/connectors/impls/cb.rs` — the CB test connector
  (`CbSink::on_event`, `ReceivedCbs`, `CbSource::did_receive_all`,
  `CbSource::pull_data`, `CbSource::new`, `Config`);
* `src/src/connectors/impls/gbq/writer/sink.rs` — the BigQuery writer
  (`map_field`, `encode_field`, `JsonToProtobufMapping::map`);
* `src/src/connectors/impls/http/meta.rs` — the HTTP request builder
  (`HttpRequestBuilder::new`, header merge and content-type resolution).

Machine integers are modelled as `Nat`/`Int`; fallible code returns
`Except`/`Option`.
-/

namespace Tremor

/-! ## Value model

Embeds `tremor_value::Value` (the simd-json-like event value):
`Static(Null | Bool | I64 | U64 | F64)`, `String`, `Array`, `Object`,
`Bytes`.  A float is carried as its IEEE-754 bit pattern (no float
arithmetic happens in any of the embedded code paths).  Objects are
association lists in iteration order.
-/

inductive Value where
  | null : Value
  | bool (b : Bool) : Value
  | i64 (n : Int) : Value
  | u64 (n : Nat) : Value
  | f64 (bits : Nat) : Value
  | str (s : String) : Value
  | array (xs : List Value) : Value
  | object (kvs : List (String × Value)) : Value
  | bytes (bs : List Nat) : Value

/-- Embeds `value_trait::ValueType`, as reported by `Value::value_type()`. -/
inductive ValueType where
  | null | bool | i64 | u64 | f64 | string | array | object | bytes
deriving DecidableEq, Repr

namespace Value

/-- Embeds `Value::value_type()`. -/
def valueType : Value → ValueType
  | .null => .null
  | .bool _ => .bool
  | .i64 _ => .i64
  | .u64 _ => .u64
  | .f64 _ => .f64
  | .str _ => .string
  | .array _ => .array
  | .object _ => .object
  | .bytes _ => .bytes

/-- Embeds `Value::as_str`: `Some` exactly on `String` values. -/
def asStr : Value → Option String
  | .str s => some s
  | _ => none

/-- Embeds `Value::as_array`. -/
def asArray : Value → Option (List Value)
  | .array xs => some xs
  | _ => none

/-- Embeds `Value::as_object` (iteration in stored order). -/
def asObject : Value → Option (List (String × Value))
  | .object kvs => some kvs
  | _ => none

/-- Embeds `Value::as_bool`. -/
def asBool : Value → Option Bool
  | .bool b => some b
  | _ => none

/-- Embeds `Value::as_f64`: `Some` only on `F64` values (no casting). -/
def asF64 : Value → Option Nat
  | .f64 bits => some bits
  | _ => none

/-- Embeds `Value::as_i64`: `I64` values directly, `U64` values when they
fit into a signed 64-bit integer. -/
def asI64 : Value → Option Int
  | .i64 n => some n
  | .u64 n => if n ≤ 2 ^ 63 - 1 then some (Int.ofNat n) else none
  | _ => none

/-- Embeds `Value::as_bytes`: `Some` exactly on `Bytes` values. -/
def asBytes : Value → Option (List Nat)
  | .bytes bs => some bs
  | _ => none

/-- Embeds `ValueAccess::get` on objects: first entry with the given key. -/
def get (v : Value) (k : String) : Option Value :=
  match v with
  | .object kvs => (kvs.find? (fun kv => kv.1 = k)).map Prod.snd
  | _ => none

end Value

/-! ## CB connector — sink half (`CbSink::on_event`) -/

/-- Embeds `SinkAck` (`Ack`, `Fail`, `None`). -/
inductive SinkAck where
  | ack | fail | none
deriving DecidableEq, Repr

/-- Embeds `CbAction` (`None`, `Trigger`, `Restore`; the source file only
constructs these three). -/
inductive CbAction where
  | none | trigger | restore
deriving DecidableEq, Repr

/-- Embeds `SinkReply { ack, cb }`. -/
structure SinkReply where
  ack : SinkAck
  cb : CbAction
deriving DecidableEq, Repr

/-- Embeds `SinkReply::NONE`. -/
def SinkReply.NONE : SinkReply := { ack := .none, cb := .none }

namespace CbSink

/-- Modelled from the spec: `ctx.extract_meta` is defined outside `src/`
(connectors prelude); per §6 the CB sink "reads `cb: string | [string]`
from meta or payload", i.e. for the connector type `cb` it extracts the
`cb` field of the given value. -/
def extractMeta (v : Value) : Option Value :=
  v.get "cb"

/-- Embeds the command-list extraction of `CbSink::on_event`
(cb.rs lines 132-141): an array keeps its string elements, a string
becomes a singleton, anything else yields no commands. -/
def cbCmdsOf (cb : Value) : List String :=
  match cb.asArray with
  | some xs => xs.filterMap Value.asStr
  | none =>
    match cb.asStr with
    | some s => [s]
    | none => []

/-- Embeds the reply construction of `CbSink::on_event`
(cb.rs lines 143-164): acknowledgement and circuit-breaker chains. -/
def replyOf (cbCmds : List String) : SinkReply :=
  { ack :=
      if cbCmds.contains "ack" then .ack
      else if cbCmds.contains "fail" then .fail
      else .none,
    cb :=
      if cbCmds.contains "close" || cbCmds.contains "trigger" then .trigger
      else if cbCmds.contains "open" || cbCmds.contains "restore" then .restore
      else .none }

/-- Embeds the loop of `CbSink::on_event` over `event.value_meta_iter()`:
the first (value, meta) pair whose meta (or, failing that, value) yields a
`cb` field produces the reply; otherwise `SinkReply::NONE`. -/
def onEvent : List (Value × Value) → SinkReply
  | [] => SinkReply.NONE
  | (value, meta) :: rest =>
    match (extractMeta meta).orElse (fun _ => extractMeta value) with
    | some cb => replyOf (cbCmdsOf cb)
    | none => onEvent rest

end CbSink

/-! ## CB connector — source half -/

/-- Embeds the CB connector `Config` (cb.rs lines 26-37):
`path : Option<PathBuf>`, `timeout : u64` (default 10_000_000_000 ns),
`expect_batched : bool` (default false). -/
structure CbConfig where
  path : Option String
  timeout : Nat
  expect_batched : Bool
deriving DecidableEq, Repr

/-- Embeds `default_timeout()` (10 seconds in nanoseconds). -/
def defaultTimeout : Nat := 10000000000

/-- Embeds `ReceivedCbs`: collected ack and fail pull-ids plus
trigger/restore counters. -/
structure ReceivedCbs where
  ack : List Nat
  fail : List Nat
  trigger : Nat
  restore : Nat
deriving DecidableEq, Repr

namespace ReceivedCbs

/-- Embeds `ReceivedCbs::count`: number of acks plus number of fails. -/
def count (r : ReceivedCbs) : Nat :=
  r.ack.length + r.fail.length

/-- Rust `Option::max`: `None` is smaller than any `Some`. -/
def omax : Option Nat → Option Nat → Option Nat
  | none, b => b
  | some a, none => some a
  | some a, some b => some (max a b)

/-- Embeds `ReceivedCbs::max`: the maximum of the ack maximum and the
fail maximum, `none` when both lists are empty. -/
def maxId (r : ReceivedCbs) : Option Nat :=
  omax r.ack.max? r.fail.max?

end ReceivedCbs

/-- Embeds the mutable state of `CbSource`: the unread rest of the file
(as lines), `num_sent`, `last_sent`, the received CBs and the `finished`
flag, plus the configuration. -/
structure CbState where
  file : List String
  num_sent : Nat
  last_sent : Nat
  received_cbs : ReceivedCbs
  finished : Bool
  config : CbConfig
deriving DecidableEq, Repr

namespace CbState

/-- Embeds `CbSource::did_receive_all` (cb.rs lines 210-220). -/
def didReceiveAll (s : CbState) : Bool :=
  let all_received :=
    if s.config.expect_batched then
      ((s.received_cbs.maxId).map (fun m => m == s.last_sent)).getD false
    else
      s.received_cbs.count == s.num_sent
  s.finished && all_received

end CbState

/-- Embeds the success/failure reports that `CbSource::pull_data` prints
to stderr in its finished branch (cb.rs lines 266-275): the success
report carries the received acks and fails; the failure report carries
the expected maximal id (`last_sent`) and the received acks and fails. -/
inductive CbReport where
  | success (acks fails : List Nat) : CbReport
  | failure (lastSent : Nat) (acks fails : List Nat) : CbReport
deriving DecidableEq, Repr

/-- Embeds `ShutdownMode` of the `system` module (graceful vs forceful),
as requested through the kill switch. -/
inductive ShutdownMode where
  | graceful | forceful
deriving DecidableEq, Repr

/-- Modelled from the spec: the process-level effect of a kill-switch
shutdown is not under `src/` (the `system` module is external). §6 states
"0 for graceful completion", so a graceful kill-switch stop exits with
code 0; a forceful stop is modelled as a nonzero exit. -/
def exitCodeOfShutdown : ShutdownMode → Nat
  | .graceful => 0
  | .forceful => 1

/-- Outcome of one `CbSource::pull_data` call: a data reply with the
line's bytes, an end-of-stream marker, or the final reply together with
the report printed and the shutdown requested via the kill switch. -/
inductive PullOutcome where
  | data (line : String) : PullOutcome
  | endStream : PullOutcome
  | finished (report : CbReport) (shutdown : ShutdownMode) : PullOutcome
deriving DecidableEq, Repr

namespace CbState

/-- Embeds `CbSource::pull_data` (cb.rs lines 246-290) as a state
transition.  A remaining line is sent as data, incrementing `num_sent`
and raising `last_sent` to the current pull id.  At end of file the
source first transitions to `finished` and emits `EndStream`.  On a
later pull the finished branch runs; the sleep of up to `timeout`
nanoseconds is a suspension during which ack/fail callbacks may still
mutate the state, so this function is applied to the state as it stands
at the post-sleep re-check.  Both the success and the failure branch
spawn `kill_switch.stop(ShutdownMode::Graceful)`. -/
def pullStep (s : CbState) (pullId : Nat) : CbState × PullOutcome :=
  match s.file with
  | line :: rest =>
    ({ s with
        file := rest,
        num_sent := s.num_sent + 1,
        last_sent := Nat.max s.last_sent pullId },
      .data line)
  | [] =>
    if s.finished then
      let report :=
        if s.didReceiveAll then
          CbReport.success s.received_cbs.ack s.received_cbs.fail
        else
          CbReport.failure s.last_sent s.received_cbs.ack s.received_cbs.fail
      (s, .finished report .graceful)
    else
      ({ s with finished := true }, .endStream)

/-- Embeds `CbSource::ack`: record the pull id among the acks. -/
def onAck (s : CbState) (pullId : Nat) : CbState :=
  { s with received_cbs := { s.received_cbs with ack := s.received_cbs.ack ++ [pullId] } }

/-- Embeds `CbSource::fail`: record the pull id among the fails. -/
def onFail (s : CbState) (pullId : Nat) : CbState :=
  { s with received_cbs := { s.received_cbs with fail := s.received_cbs.fail ++ [pullId] } }

/-- Repeated `pull_data` calls with the given pull ids, keeping only the
resulting state. -/
def runPulls (s : CbState) : List Nat → CbState
  | [] => s
  | pid :: rest => runPulls (s.pullStep pid).1 rest

end CbState

/-- Embeds the initial `CbSource` state built by `CbSource::new`
(cb.rs lines 224-237), with the opened file contents given as lines. -/
def CbState.init (config : CbConfig) (lines : List String) : CbState :=
  { file := lines,
    num_sent := 0,
    last_sent := 0,
    received_cbs := { ack := [], fail := [], trigger := 0, restore := 0 },
    finished := false,
    config := config }

/-! ## BigQuery writer — schema mapping and protobuf encoding
(`src/src/connectors/impls/gbq/writer/sink.rs`) -/

namespace Gbq

/-- Embeds `table_field_schema::Type` of the BigQuery storage API. -/
inductive TableType where
  | unspecified | string | int64 | double | struct | bytes | bool
  | timestamp | date | time | datetime | geography | numeric
  | bignumeric | interval | json
deriving DecidableEq, Repr

/-- Embeds `table_field_schema::Type::from_i32` with the numbering of the
generated BigQuery storage protobuf enum; `none` for any other number
(an unknown type). -/
def typeFromI32 : Int → Option TableType
  | 0 => some .unspecified
  | 1 => some .string
  | 2 => some .int64
  | 3 => some .double
  | 4 => some .struct
  | 5 => some .bytes
  | 6 => some .bool
  | 7 => some .timestamp
  | 8 => some .date
  | 9 => some .time
  | 10 => some .datetime
  | 11 => some .geography
  | 12 => some .numeric
  | 13 => some .bignumeric
  | 14 => some .interval
  | 15 => some .json
  | _ => none

/-- Embeds `TableFieldSchema` (name, raw type number, nested fields). -/
inductive TableFieldSchema where
  | mk (name : String) (rawType : Int) (fields : List TableFieldSchema)

/-- Field name of a `TableFieldSchema`. -/
def TableFieldSchema.name : TableFieldSchema → String
  | .mk n _ _ => n

/-- Raw type number of a `TableFieldSchema`. -/
def TableFieldSchema.rawType : TableFieldSchema → Int
  | .mk _ t _ => t

/-- Nested fields of a `TableFieldSchema`. -/
def TableFieldSchema.fields : TableFieldSchema → List TableFieldSchema
  | .mk _ _ fs => fs

/-- Embeds `field_descriptor_proto::Type` (only the variants the source
constructs), with `i32From` giving the protobuf enum numbers. -/
inductive GrpcType where
  | int64 | double | bool | bytes | string | message
deriving DecidableEq, Repr

/-- The protobuf enum number of a `field_descriptor_proto::Type`. -/
def GrpcType.i32From : GrpcType → Int
  | .double => 1
  | .int64 => 3
  | .bool => 8
  | .string => 9
  | .message => 11
  | .bytes => 12

/-- Embeds `FieldDescriptorProto`; the source sets `label`, `extendee`,
`default_value`, `oneof_index`, `json_name`, `options` and
`proto3_optional` to `None` always, so only the populated fields are
carried. -/
structure FieldDescriptorProto where
  name : Option String
  number : Option Int
  type : Option Int
  typeName : Option String
deriving DecidableEq, Repr

/-- Embeds `DescriptorProto` (name, fields, nested types; the remaining
components are always empty in the source). -/
inductive DescriptorProto where
  | mk (name : Option String) (field : List FieldDescriptorProto)
      (nestedType : List DescriptorProto)

/-- Name of a `DescriptorProto`. -/
def DescriptorProto.name : DescriptorProto → Option String
  | .mk n _ _ => n

/-- Field list of a `DescriptorProto`. -/
def DescriptorProto.field : DescriptorProto → List FieldDescriptorProto
  | .mk _ fs _ => fs

/-- Nested types of a `DescriptorProto`. -/
def DescriptorProto.nestedType : DescriptorProto → List DescriptorProto
  | .mk _ _ ns => ns

/-- Embeds the sink's `Field` record: table type, protobuf tag and
(for struct types) the subfield map.  The Rust `HashMap` is modelled as
an association list in insertion order (schema field names are unique
per message). -/
inductive Field where
  | mk (tableType : TableType) (tag : Nat) (subfields : List (String × Field))

/-- Table type of a `Field`. -/
def Field.tableType : Field → TableType
  | .mk t _ _ => t

/-- Protobuf tag of a `Field`. -/
def Field.tag : Field → Nat
  | .mk _ t _ => t

/-- Subfield map of a `Field`. -/
def Field.subfields : Field → List (String × Field)
  | .mk _ _ s => s

/-- Embeds the non-struct arm of the `grpc_type` match in `map_field`
(sink.rs lines 80-103): which protobuf wire type each known scalar
table type is declared as. -/
def scalarGrpcType : TableType → GrpcType
  | .int64 => .int64
  | .double => .double
  | .bool => .bool
  | .bytes => .bytes
  | _ => .string

mutual

/-- Embeds `map_field` (sink.rs lines 56-161): builds the descriptor for
`schema_name` and the name→`Field` map from the raw schema fields. -/
def mapField (schemaName : String) (rawFields : List TableFieldSchema) :
    DescriptorProto × List (String × Field) :=
  let r := mapFieldLoop rawFields 1
  (DescriptorProto.mk (some schemaName) r.1 r.2.2, r.2.1)

/-- Embeds the `for raw_field in raw_fields` loop of `map_field` with the
running `tag` counter: returns the accumulated `proto_fields`, `fields`
map and `nested_types`.  A field whose raw type number is unknown, or is
`Unspecified`, is skipped (`continue`) without advancing the tag. -/
def mapFieldLoop (rawFields : List TableFieldSchema) (tag : Nat) :
    List FieldDescriptorProto × List (String × Field) × List DescriptorProto :=
  match rawFields with
  | [] => ([], [], [])
  | .mk fname frawType ffields :: rest =>
    match typeFromI32 frawType with
    | none => mapFieldLoop rest tag
    | some tableType =>
      match tableType with
      | .unspecified => mapFieldLoop rest tag
      | .struct =>
        let typeNameForField := "struct_" ++ fname
        let mapped := mapField typeNameForField ffields
        let r := mapFieldLoop rest (tag + 1)
        ({ name := some fname, number := some (Int.ofNat tag),
           type := some GrpcType.message.i32From,
           typeName := some typeNameForField } :: r.1,
         (fname, Field.mk tableType tag mapped.2) :: r.2.1,
         mapped.1 :: r.2.2)
      | _ =>
        let r := mapFieldLoop rest (tag + 1)
        ({ name := some fname, number := some (Int.ofNat tag),
           type := some (scalarGrpcType tableType).i32From,
           typeName := none } :: r.1,
         (fname, Field.mk tableType tag []) :: r.2.1,
         r.2.2)

end

/-- A schema field is kept by `map_field` exactly when its raw type
number parses to a known type other than `Unspecified` (the two
`continue` arms of the loop drop it otherwise). -/
def keepsField (f : TableFieldSchema) : Bool :=
  match typeFromI32 f.rawType with
  | some t => t != TableType.unspecified
  | none => false

/-! ### Protobuf wire encoding (the `prost::encoding` entry points the
source calls) -/

/-- Embeds `prost::encoding::encode_varint`: little-endian base-128. -/
def encodeVarint (n : Nat) : List Nat :=
  if n < 128 then [n]
  else (n % 128 + 128) :: encodeVarint (n / 128)
decreasing_by
  exact Nat.div_lt_self (by omega) (by omega)

/-- Protobuf wire type numbers (`Varint` 0, `SixtyFourBit` 1,
`LengthDelimited` 2). -/
def wireVarint : Nat := 0

/-- Wire type number of `WireType::SixtyFourBit`. -/
def wireSixtyFourBit : Nat := 1

/-- Wire type number of `WireType::LengthDelimited`. -/
def wireLengthDelimited : Nat := 2

/-- Embeds `prost::encoding::encode_key`: varint of `tag << 3 | wire`. -/
def encodeKey (tag : Nat) (wire : Nat) : List Nat :=
  encodeVarint (tag * 8 + wire)

/-- Little-endian byte decomposition of a natural number into `k` bytes
(used for the fixed 64-bit double encoding). -/
def leBytes : Nat → Nat → List Nat
  | 0, _ => []
  | k + 1, n => n % 256 :: leBytes k (n / 256)

/-- Two's-complement 64-bit image of a signed integer, as used by
`prost::encoding::int64::encode`. -/
def toU64 (n : Int) : Nat :=
  (n % (2 ^ 64 : Int)).toNat

/-- UTF-8 encoding of one character. -/
def utf8Char (c : Char) : List Nat :=
  let n := c.toNat
  if n < 128 then [n]
  else if n < 2048 then [192 + n / 64, 128 + n % 64]
  else if n < 65536 then
    [224 + n / 4096, 128 + n / 64 % 64, 128 + n % 64]
  else
    [240 + n / 262144, 128 + n / 4096 % 64, 128 + n / 64 % 64, 128 + n % 64]

/-- UTF-8 bytes of a string. -/
def utf8Bytes (s : String) : List Nat :=
  s.data.flatMap utf8Char

/-- Embeds `ErrorKind` (only the variants this file constructs):
`BigQueryTypeMismatch(expected, actual)` and `ClientNotAvailable`. -/
inductive ErrorKind where
  | bigQueryTypeMismatch (expected : String) (actual : ValueType)
  | clientNotAvailable (who what : String)
deriving DecidableEq, Repr

mutual

/-- Embeds `encode_field` (sink.rs lines 163-249).  Instead of mutating
a `result` buffer it returns the bytes appended to it.  The scalar arms
read the value with the matching `as_*` accessor and fail with
`BigQueryTypeMismatch(expected, value_type)` when the read fails; the
struct arm encodes the present subfields into a buffer and emits a
length-delimited key, varint length and the buffer; `Json`, `Interval`
and `Unspecified` fields are skipped with a warning (no bytes, no
error). -/
def encodeField (val : Value) (field : Field) : Except ErrorKind (List Nat) :=
  let tag := field.tag
  match field.tableType with
  | .double =>
    match val.asF64 with
    | some bits => .ok (encodeKey tag wireSixtyFourBit ++ leBytes 8 bits)
    | none => .error (.bigQueryTypeMismatch "f64" val.valueType)
  | .int64 =>
    match val.asI64 with
    | some n => .ok (encodeKey tag wireVarint ++ encodeVarint (toU64 n))
    | none => .error (.bigQueryTypeMismatch "i64" val.valueType)
  | .bool =>
    match val.asBool with
    | some b => .ok (encodeKey tag wireVarint ++ [if b then 1 else 0])
    | none => .error (.bigQueryTypeMismatch "bool" val.valueType)
  | .string | .date | .time | .datetime | .timestamp
  | .numeric | .bignumeric | .geography =>
    match val.asStr with
    | some s =>
      .ok (encodeKey tag wireLengthDelimited
            ++ encodeVarint (utf8Bytes s).length ++ utf8Bytes s)
    | none => .error (.bigQueryTypeMismatch "string" val.valueType)
  | .struct =>
    match val with
    | .object kvs =>
      match encodeStructFields kvs field.subfields with
      | .ok structBuf =>
        .ok (encodeKey tag wireLengthDelimited
              ++ encodeVarint structBuf.length ++ structBuf)
      | .error e => .error e
    | _ => .error (.bigQueryTypeMismatch "object" val.valueType)
  | .bytes =>
    match val.asBytes with
    | some bs =>
      .ok (encodeKey tag wireLengthDelimited ++ encodeVarint bs.length ++ bs)
    | none => .error (.bigQueryTypeMismatch "bytes" val.valueType)
  | .json => .ok []
  | .interval => .ok []
  | .unspecified => .ok []

/-- Embeds the `for (k, v) in val.as_object()` loop of the struct arm of
`encode_field` (and, with the same shape, the loop of
`JsonToProtobufMapping::map`): each entry present in the subfield map is
encoded and appended; entries without a subfield description are skipped
with a warning. -/
def encodeStructFields (kvs : List (String × Value))
    (subs : List (String × Field)) : Except ErrorKind (List Nat) :=
  match kvs with
  | [] => .ok []
  | (k, v) :: rest =>
    match subs.find? (fun p => p.1 = k) with
    | some p =>
      match encodeField v p.2 with
      | .ok b =>
        match encodeStructFields rest subs with
        | .ok r => .ok (b ++ r)
        | .error e => .error e
      | .error e => .error e
    | none => encodeStructFields rest subs

end

/-- Embeds `JsonToProtobufMapping` (descriptor plus field map). -/
structure JsonToProtobufMapping where
  fields : List (String × Field)
  descriptor : DescriptorProto

/-- Embeds `JsonToProtobufMapping::new`: maps the raw schema under the
message name `table`. -/
def JsonToProtobufMapping.new (vec : List TableFieldSchema) : JsonToProtobufMapping :=
  let descriptor := mapField "table" vec
  { descriptor := descriptor.1, fields := descriptor.2 }

/-- Embeds `JsonToProtobufMapping::map` (sink.rs lines 261-275): encodes
each object entry that has a mapped field; a non-object top-level value
is a `BigQueryTypeMismatch("object", value_type)` error. -/
def JsonToProtobufMapping.map (m : JsonToProtobufMapping) (value : Value) :
    Except ErrorKind (List Nat) :=
  match value with
  | .object kvs => encodeStructFields kvs m.fields
  | _ => .error (.bigQueryTypeMismatch "object" value.valueType)

end Gbq

/-! ## HTTP request builder (`src/src/connectors/impls/http/meta.rs`,
`HttpRequestBuilder::new`) — the header merge and content-type
resolution.  `http_types` headers are a map from case-insensitive header
names to lists of values; the map is modelled as an association list
whose keys are unique up to ASCII lower-casing (which holds for every
list the embedded operations construct). -/

namespace Http

/-- ASCII lower-casing of one character, as `HeaderName` construction
applies it. -/
def lowerChar (c : Char) : Char :=
  if 'A' ≤ c ∧ c ≤ 'Z' then Char.ofNat (c.toNat + 32) else c

/-- Header-name normalisation: `http_types::headers::HeaderName` is
ASCII case-insensitive (lower-cased on construction). -/
def normName (s : String) : String := String.mk (s.data.map lowerChar)

/-- The header map of a request: name → values, in insertion order. -/
abbrev Headers := List (String × List String)

/-- Embeds `Request::append_header`: push the values onto the existing
entry for the name, or add a new entry at the end. -/
def appendHeader (hs : Headers) (name : String) (vals : List String) : Headers :=
  match hs with
  | [] => [(name, vals)]
  | (k, vs) :: rest =>
    if normName k = normName name then (k, vs ++ vals) :: rest
    else (k, vs) :: appendHeader rest name vals

/-- Embeds `Request::insert_header`: replace the values of the existing
entry for the name, or add a new entry at the end. -/
def insertHeader (hs : Headers) (name : String) (vals : List String) : Headers :=
  match hs with
  | [] => [(name, vals)]
  | (k, vs) :: rest =>
    if normName k = normName name then (k, vals) :: rest
    else (k, vs) :: insertHeader rest name vals

/-- Embeds `Request::remove_header`. -/
def removeHeader (hs : Headers) (name : String) : Headers :=
  hs.filter (fun p => !(normName p.1 = normName name : Bool))

/-- Embeds `Request::header(name)` followed by iterating the values:
the values stored under the name (empty when absent). -/
def getHeader (hs : Headers) (name : String) : List String :=
  ((hs.find? (fun p => normName p.1 = normName name)).map Prod.snd).getD []

/-- The last value stored under a header name, as used by
`HeaderValues::last` and `Request::content_type`. -/
def lastValue (hs : Headers) (name : String) : Option String :=
  (getHeader hs name).getLast?

/-- Embeds the `Either<Vec<String>, String>` payload of a configured
header (`client::Config::headers`). -/
inductive ConfigValues where
  | many (vs : List String)
  | one (v : String)
deriving DecidableEq, Repr

/-- The values a configured header contributes, in order (the source
appends the `Left` vector element-wise and the `Right` value singly). -/
def ConfigValues.vals : ConfigValues → List String
  | .many vs => vs
  | .one v => [v]

/-- The parts of `client::Config` the header construction reads:
the configured header map and the optional `Authorization` header value
produced by `config.auth.as_header_value()`. -/
structure ClientConfig where
  headers : List (String × ConfigValues)
  auth : Option String

/-- Embeds the first header loop of `HttpRequestBuilder::new`
(meta.rs lines 77-89): append every configured header value. -/
def applyConfigHeaders : List (String × ConfigValues) → Headers → Headers
  | [], hs => hs
  | (k, cv) :: rest, hs => applyConfigHeaders rest (appendHeader hs k cv.vals)

/-- Embeds the per-entry behaviour of the second header loop
(meta.rs lines 91-105): an array contributes its string elements, a
string contributes itself, anything else is skipped. -/
def metaEntryVals (values : Value) : Option (List String) :=
  match values.asArray with
  | some arr => some (arr.filterMap Value.asStr)
  | none =>
    match values.asStr with
    | some s => some [s]
    | none => none

/-- Embeds the second header loop of `HttpRequestBuilder::new`: append
the meta `request.headers` values onto the configured ones. -/
def applyMetaEntries : List (String × Value) → Headers → Headers
  | [], hs => hs
  | (k, v) :: rest, hs =>
    match metaEntryVals v with
    | some vals => applyMetaEntries rest (appendHeader hs k vals)
    | none => applyMetaEntries rest hs

/-- The meta headers object, when the event meta carries one
(`meta.get("request").get("headers").as_object()`). -/
def metaHeadersObject (meta : Option Value) : List (String × Value) :=
  match meta.bind (fun m => m.get "request") |>.bind (fun r => r.get "headers") with
  | some v => (v.asObject).getD []
  | none => []

/-- The header map after both loops of `HttpRequestBuilder::new`: config
headers first, then meta `request.headers`. -/
def mergedHeaders (config : ClientConfig) (meta : Option Value) : Headers :=
  applyMetaEntries (metaHeadersObject meta) (applyConfigHeaders config.headers [])

/-- Essence of a MIME string as `http_types::Mime` exposes it: the part
before any parameter, trimmed and lower-cased. -/
def mimeEssence (s : String) : String :=
  ((s.splitOn ";").headD s).trim.toLower

/-- The MIME of `http_types::mime::BYTE_STREAM`. -/
def byteStream : String := "application/octet-stream"

/-- The outcome of `HttpRequestBuilder::new` that matters for the header
claims: the final header map, the chosen codec overwrite and whether the
body is chunked. -/
structure BuiltRequest where
  headers : Headers
  codecOverwrite : Option String
  chunked : Bool

/-- Embeds `HttpRequestBuilder::new` (meta.rs lines 48-168), restricted
to its header processing: merge config and meta headers, detect chunked
transfer encoding, resolve the content type with precedence explicit
header > override-codec MIME > configured-codec MIME >
`application/octet-stream`, set it when no content-type header is
present, insert the `Authorization` header when the config's auth yields
one, and drop `Content-Length` when chunked.  MIME values are carried as
strings and assumed well-formed (`Mime::from_str` succeeding), and
`getCodecName`/`getMimeType` stand for the two lookups of the
`MimeCodecMap`. -/
def httpRequestBuilderNew (config : ClientConfig) (meta : Option Value)
    (getCodecName getMimeType : String → Option String)
    (configuredCodec : String) : BuiltRequest :=
  let hs := mergedHeaders config meta
  let chunked := (lastValue hs "transfer-encoding") == some "chunked"
  let headerContentType := lastValue hs "content-type"
  let codecOverwrite :=
    (headerContentType.bind (fun mime => getCodecName (mimeEssence mime))).filter
      (fun codec => codec ≠ configuredCodec)
  let codecContentType :=
    (codecOverwrite.bind getMimeType).orElse (fun _ => getMimeType configuredCodec)
  let contentType := some ((headerContentType.orElse (fun _ => codecContentType)).getD byteStream)
  let hs :=
    if (lastValue hs "content-type").isNone then
      match contentType with
      | some ct => insertHeader hs "content-type" [ct]
      | none => hs
    else hs
  let hs :=
    match config.auth with
    | some authHeader => insertHeader hs "authorization" [authHeader]
    | none => hs
  let hs := if chunked then removeHeader hs "content-length" else hs
  { headers := hs, codecOverwrite := codecOverwrite, chunked := chunked }

/-- The values a header name receives from the configured headers, in
configuration order. -/
def configValuesFor (cfgs : List (String × ConfigValues)) (name : String) : List String :=
  cfgs.flatMap (fun p => if normName p.1 = normName name then p.2.vals else [])

/-- The values a header name receives from the meta `request.headers`,
in object order. -/
def metaValuesFor (entries : List (String × Value)) (name : String) : List String :=
  entries.flatMap (fun p =>
    if normName p.1 = normName name then (metaEntryVals p.2).getD [] else [])

end Http

/-! ## CB connector configuration parsing (`Config::new` via serde with
`deny_unknown_fields`, and `CbSource::new`) -/

/-- Configuration-parse errors of the serde-generated `Deserialize`
implementation for the CB `Config` (struct visitor semantics:
`deny_unknown_fields` rejects any undeclared key, duplicate keys are
rejected, and field payloads must have the declared types). -/
inductive ConfigError where
  | unknownField (key : String)
  | duplicateField (key : String)
  | invalidType (key : String)
  | notAnObject
deriving DecidableEq, Repr

/-- Deserialize `path : Option<PathBuf>`: `null` is `None`, a string is
`Some`. -/
def parsePathField : Value → Option (Option String)
  | .null => some none
  | .str s => some (some s)
  | _ => none

/-- Deserialize `timeout : u64`: a non-negative integer. -/
def parseU64Field : Value → Option Nat
  | .u64 n => some n
  | .i64 n => if 0 ≤ n then some n.toNat else none
  | _ => none

/-- Deserialize `expect_batched : bool`. -/
def parseBoolField : Value → Option Bool
  | .bool b => some b
  | _ => none

/-- The struct-visitor loop of the serde-generated deserializer for the
CB `Config`: walk the record entries, filling the three declared fields
and rejecting unknown keys, duplicates and ill-typed payloads. -/
def configLoop : List (String × Value) → Option (Option String) → Option Nat →
    Option Bool → Except ConfigError (Option (Option String) × Option Nat × Option Bool)
  | [], p, t, e => .ok (p, t, e)
  | (k, v) :: rest, p, t, e =>
    if k = "path" then
      if p.isSome then .error (.duplicateField k)
      else
        match parsePathField v with
        | some pv => configLoop rest (some pv) t e
        | none => .error (.invalidType k)
    else if k = "timeout" then
      if t.isSome then .error (.duplicateField k)
      else
        match parseU64Field v with
        | some tv => configLoop rest p (some tv) e
        | none => .error (.invalidType k)
    else if k = "expect_batched" then
      if e.isSome then .error (.duplicateField k)
      else
        match parseBoolField v with
        | some ev => configLoop rest p t (some ev)
        | none => .error (.invalidType k)
    else .error (.unknownField k)

/-- Embeds `Config::new(raw)` for the CB connector: deserialize the
record (rejecting unknown keys per `deny_unknown_fields`), applying the
declared defaults `timeout = default_timeout()` and
`expect_batched = false`; `path` is optional. -/
def configNew (v : Value) : Except ConfigError CbConfig :=
  match v.asObject with
  | some kvs =>
    match configLoop kvs none none none with
    | .ok (p, t, e) =>
      .ok { path := p.getD none,
            timeout := t.getD defaultTimeout,
            expect_batched := e.getD false }
    | .error err => .error err
  | none => .error .notAnObject

/-- Modelled from the spec: `err_connector_def` lives in the `errors`
module, which is not under `src/`; per §6/§7 a missing required key
yields a typed definition error naming the connector alias and the key
(an `InvalidConnectorDefinition`-style error). -/
inductive CbBuildError where
  | invalidConnectorDefinition (aliasName : String) (msg : String)
  | ioError (msg : String)
deriving DecidableEq, Repr

/-- Embeds `CbSource::new` (cb.rs lines 221-242): with a configured path
the source state is initialised over the opened file's lines; without
one the build fails with `err_connector_def(alias, "Missing path
key.")`.  File-open errors are out of scope (the file's lines are given). -/
def cbSourceNew (config : CbConfig) (aliasName : String) (lines : List String) :
    Except CbBuildError CbState :=
  match config.path with
  | some _ => .ok (CbState.init config lines)
  | none => .error (.invalidConnectorDefinition aliasName "Missing path key.")

/-! # Theorems -/

/-- Computation rule for the schema-field name accessor. -/
@[simp] theorem Gbq.TableFieldSchema.name_mk (n : String) (t : Int)
    (fs : List Gbq.TableFieldSchema) : (Gbq.TableFieldSchema.mk n t fs).name = n := rfl

/-- Computation rule for the schema-field raw-type accessor. -/
@[simp] theorem Gbq.TableFieldSchema.rawType_mk (n : String) (t : Int)
    (fs : List Gbq.TableFieldSchema) : (Gbq.TableFieldSchema.mk n t fs).rawType = t := rfl

/-- Computation rule for the field-map tag accessor. -/
@[simp] theorem Gbq.Field.tag_mk (t : Gbq.TableType) (g : Nat)
    (s : List (String × Gbq.Field)) : (Gbq.Field.mk t g s).tag = g := rfl

/-- Computation rule for the field-map table-type accessor. -/
@[simp] theorem Gbq.Field.tableType_mk (t : Gbq.TableType) (g : Nat)
    (s : List (String × Gbq.Field)) : (Gbq.Field.mk t g s).tableType = t := rfl

/-- Computation rule for the field-map subfield accessor. -/
@[simp] theorem Gbq.Field.subfields_mk (t : Gbq.TableType) (g : Nat)
    (s : List (String × Gbq.Field)) : (Gbq.Field.mk t g s).subfields = s := rfl

/-- Computation rule for the descriptor field-list accessor. -/
@[simp] theorem Gbq.DescriptorProto.field_mk (n : Option String)
    (fs : List Gbq.FieldDescriptorProto) (ns : List Gbq.DescriptorProto) :
    (Gbq.DescriptorProto.mk n fs ns).field = fs := rfl

/-- The maximum of an appended list is the Rust `Option::max` of the two
maxima, i.e. the shape computed by `ReceivedCbs::max`. -/
theorem max?_append_omax (xs ys : List Nat) :
    (xs ++ ys).max? = ReceivedCbs.omax xs.max? ys.max? := by
  induction xs with
  | nil => simp [ReceivedCbs.omax]
  | cons x xs ih =>
    rw [List.cons_append, List.max?_cons, List.max?_cons, ih]
    cases hx : xs.max? <;> cases hy : ys.max? <;>
      simp [ReceivedCbs.omax, max_assoc]

/-- The number of lines sent only grows with further pulls: each pull
consumes one line while any remains, and leaves `num_sent` unchanged at
and after end of file. -/
theorem runPulls_num_sent (ids : List Nat) :
    ∀ s : CbState, (CbState.runPulls s ids).num_sent =
      s.num_sent + Nat.min ids.length s.file.length := by
  induction ids with
  | nil => intro s; simp [CbState.runPulls]
  | cons pid rest ih =>
    intro s
    cases hfile : s.file with
    | nil =>
      cases hfin : s.finished <;>
        simp [CbState.runPulls, CbState.pullStep, hfile, hfin, ih]
    | cons line tail =>
      simp only [CbState.runPulls, CbState.pullStep, hfile, ih]
      simp only [List.length_cons, Nat.min_def]
      split_ifs <;> omega

/-- C1: the CB source's completion check (`CbSource::did_receive_all`)
succeeds exactly when the file is finished and, if `expect_batched` is
true, the maximum pull-id over all received acks and fails equals
`last_sent` (false when no ack or fail was received at all); otherwise,
if `expect_batched` is false, when the count of received acks plus
received fails equals `num_sent` — which is the number of lines emitted
by the pull loop. -/
theorem cb_completion_predicate :
    (∀ s : CbState,
      s.didReceiveAll = true ↔
        s.finished = true ∧
          (if s.config.expect_batched then
            (s.received_cbs.ack ++ s.received_cbs.fail).max? = some s.last_sent
          else
            s.received_cbs.ack.length + s.received_cbs.fail.length = s.num_sent))
    ∧ ∀ (cfg : CbConfig) (lines : List String) (ids : List Nat),
        (CbState.runPulls (CbState.init cfg lines) ids).num_sent =
          Nat.min ids.length lines.length := by
  constructor
  · intro s
    unfold CbState.didReceiveAll ReceivedCbs.maxId
    rw [max?_append_omax]
    cases hb : s.config.expect_batched with
    | false =>
      simp [ReceivedCbs.count]
    | true =>
      simp only [if_true]
      generalize ReceivedCbs.omax s.received_cbs.ack.max? s.received_cbs.fail.max? = o
      cases o <;> simp [Bool.and_eq_true, beq_iff_eq]
  · intro cfg lines ids
    rw [runPulls_num_sent]
    simp [CbState.init]

/-- C2: evaluated on a concrete failing run (file of one line, no ack or
fail received before the re-check after the timeout), the finished
branch of `pull_data` emits the failure report (the expected maximal id
together with the received acks and fails) — but requests exactly the
same graceful kill-switch shutdown as the success path, so the process
exits 0 rather than 1.  The success path is evaluated alongside for
comparison. -/
theorem cb_finished_branch_exit :
    let cfg : CbConfig :=
      { path := some "in.json", timeout := defaultTimeout, expect_batched := false }
    let s := CbState.runPulls (CbState.init cfg ["a"]) [1, 2]
    (s.didReceiveAll = false
      ∧ (s.pullStep 3).2 = .finished (.failure 1 [] []) .graceful)
    ∧ (let sAcked := s.onAck 1
      sAcked.didReceiveAll = true
        ∧ (sAcked.pullStep 3).2 = .finished (.success [1] []) .graceful)
    ∧ exitCodeOfShutdown .graceful = 0 := by
  refine ⟨⟨?_, ?_⟩, ⟨?_, ?_⟩, rfl⟩ <;> rfl

/-- C3: for an event whose meta (or, failing that, payload) carries a
`cb` field that is a string or an array of strings, the CB sink's reply
has ack `Ack` when the commands contain "ack", else ack `Fail` when they
contain "fail", else ack `None`; and cb `Trigger` when they contain
"close" or "trigger", else cb `Restore` when they contain "open" or
"restore", else cb `None`. -/
theorem cb_sink_command_mapping (value meta : Value)
    (rest : List (Value × Value)) (cb : Value)
    (hcb : (CbSink.extractMeta meta).orElse (fun _ => CbSink.extractMeta value) = some cb)
    (_hshape : (∃ s, cb = .str s) ∨
      (∃ xs, cb = .array xs ∧ ∀ x ∈ xs, ∃ s, x = .str s)) :
    CbSink.onEvent ((value, meta) :: rest) =
      { ack :=
          if "ack" ∈ CbSink.cbCmdsOf cb then .ack
          else if "fail" ∈ CbSink.cbCmdsOf cb then .fail
          else .none,
        cb :=
          if "close" ∈ CbSink.cbCmdsOf cb ∨ "trigger" ∈ CbSink.cbCmdsOf cb then .trigger
          else if "open" ∈ CbSink.cbCmdsOf cb ∨ "restore" ∈ CbSink.cbCmdsOf cb then .restore
          else .none } := by
  show (match (CbSink.extractMeta meta).orElse (fun _ => CbSink.extractMeta value) with
      | some cb => CbSink.replyOf (CbSink.cbCmdsOf cb)
      | none => CbSink.onEvent rest) = _
  rw [hcb]
  unfold CbSink.replyOf
  simp only [List.elem_eq_mem, Bool.or_eq_true, decide_eq_true_eq]

/-- Witness for C3 at a concrete event: meta carrying `cb = "ack"`. -/
theorem cb_sink_command_mapping_witness :
    CbSink.onEvent [(Value.null, Value.object [("cb", Value.str "ack")])] =
      { ack := .ack, cb := .none } := by
  have h := cb_sink_command_mapping Value.null
    (Value.object [("cb", Value.str "ack")]) [] (Value.str "ack")
    (by rfl) (Or.inl ⟨"ack", rfl⟩)
  rw [h]
  rfl

/-- C10: conflicting CB sink commands resolve by fixed precedence: with
both "ack" and "fail" present the reply's ack is `Ack`; with both a
trigger command ("close"/"trigger") and a restore command
("open"/"restore") present the reply's cb is `Trigger`. -/
theorem cb_sink_conflict_precedence (cmds : List String) :
    ("ack" ∈ cmds → "fail" ∈ cmds → (CbSink.replyOf cmds).ack = .ack)
    ∧ (("close" ∈ cmds ∨ "trigger" ∈ cmds) →
        ("open" ∈ cmds ∨ "restore" ∈ cmds) →
        (CbSink.replyOf cmds).cb = .trigger) := by
  constructor
  · intro hack _
    unfold CbSink.replyOf
    simp [List.elem_eq_mem, decide_eq_true_eq, hack]
  · intro htrig _
    unfold CbSink.replyOf
    rcases htrig with h | h <;>
      simp [List.elem_eq_mem, Bool.or_eq_true, decide_eq_true_eq, h]

/-- The `map_field` loop starting at tag `tag` assigns the consecutive
tags `tag, tag+1, …` to exactly the kept fields, in declaration order,
both in the emitted descriptor fields and in the field map. -/
theorem mapFieldLoop_spec (fs : List Gbq.TableFieldSchema) :
    ∀ tag : Nat,
      ((Gbq.mapFieldLoop fs tag).1.map (fun f => f.number) =
        (List.range' tag (fs.filter Gbq.keepsField).length).map (fun t => some (Int.ofNat t)))
      ∧ ((Gbq.mapFieldLoop fs tag).1.map (fun f => f.name) =
        (fs.filter Gbq.keepsField).map (fun f => some f.name))
      ∧ ((Gbq.mapFieldLoop fs tag).2.1.map Prod.fst =
        (fs.filter Gbq.keepsField).map Gbq.TableFieldSchema.name)
      ∧ ((Gbq.mapFieldLoop fs tag).2.1.map (fun p => p.2.tag) =
        List.range' tag (fs.filter Gbq.keepsField).length) := by
  induction fs with
  | nil => intro tag; simp [Gbq.mapFieldLoop]
  | cons f rest ih =>
    intro tag
    obtain ⟨fname, frawType, ffields⟩ := f
    cases htype : Gbq.typeFromI32 frawType with
    | none =>
      simp [Gbq.mapFieldLoop, Gbq.keepsField, htype, ih]
    | some t =>
      cases t <;>
        simp [Gbq.mapFieldLoop, Gbq.keepsField, htype, ih, List.range'_succ]

/-- C4: mapping a table schema produces a descriptor whose fields carry
the tag numbers 1..K in declaration order, where the K kept fields are
exactly those whose type is known and specified; a field of unknown or
unspecified type appears in neither the descriptor nor the field map and
does not advance the tag counter, so later fields take the tags the
dropped field would have used. -/
theorem gbq_tag_assignment (schemaName : String)
    (rawFields : List Gbq.TableFieldSchema) :
    ((Gbq.mapField schemaName rawFields).1.field.map (fun f => f.number) =
      (List.range' 1 (rawFields.filter Gbq.keepsField).length).map
        (fun t => some (Int.ofNat t)))
    ∧ ((Gbq.mapField schemaName rawFields).1.field.map (fun f => f.name) =
      (rawFields.filter Gbq.keepsField).map (fun f => some f.name))
    ∧ ((Gbq.mapField schemaName rawFields).2.map Prod.fst =
      (rawFields.filter Gbq.keepsField).map Gbq.TableFieldSchema.name)
    ∧ ((Gbq.mapField schemaName rawFields).2.map (fun p => p.2.tag) =
      List.range' 1 (rawFields.filter Gbq.keepsField).length) := by
  have h := mapFieldLoop_spec rawFields 1
  simp only [Gbq.mapField, Gbq.DescriptorProto.field]
  exact h

/-- One-step unfolding of `encodeField`, joining the two generated
equations (object and non-object scrutinee) back into the shape of the
source `match`. -/
theorem encodeField_eq (val : Value) (f : Gbq.Field) :
    Gbq.encodeField val f =
      match f.tableType with
      | .double =>
        match val.asF64 with
        | some bits => .ok (Gbq.encodeKey f.tag Gbq.wireSixtyFourBit ++ Gbq.leBytes 8 bits)
        | none => .error (.bigQueryTypeMismatch "f64" val.valueType)
      | .int64 =>
        match val.asI64 with
        | some n => .ok (Gbq.encodeKey f.tag Gbq.wireVarint ++ Gbq.encodeVarint (Gbq.toU64 n))
        | none => .error (.bigQueryTypeMismatch "i64" val.valueType)
      | .bool =>
        match val.asBool with
        | some b => .ok (Gbq.encodeKey f.tag Gbq.wireVarint ++ [if b then 1 else 0])
        | none => .error (.bigQueryTypeMismatch "bool" val.valueType)
      | .string | .date | .time | .datetime | .timestamp
      | .numeric | .bignumeric | .geography =>
        match val.asStr with
        | some s =>
          .ok (Gbq.encodeKey f.tag Gbq.wireLengthDelimited
                ++ Gbq.encodeVarint (Gbq.utf8Bytes s).length ++ Gbq.utf8Bytes s)
        | none => .error (.bigQueryTypeMismatch "string" val.valueType)
      | .struct =>
        match val.asObject with
        | some kvs =>
          match Gbq.encodeStructFields kvs f.subfields with
          | .ok structBuf =>
            .ok (Gbq.encodeKey f.tag Gbq.wireLengthDelimited
                  ++ Gbq.encodeVarint structBuf.length ++ structBuf)
          | .error e => .error e
        | none => .error (.bigQueryTypeMismatch "object" val.valueType)
      | .bytes =>
        match val.asBytes with
        | some bs =>
          .ok (Gbq.encodeKey f.tag Gbq.wireLengthDelimited ++ Gbq.encodeVarint bs.length ++ bs)
        | none => .error (.bigQueryTypeMismatch "bytes" val.valueType)
      | .json => .ok []
      | .interval => .ok []
      | .unspecified => .ok [] := by
  obtain ⟨tt, tag, subs⟩ := f
  cases val <;>
    first
      | (rw [Gbq.encodeField.eq_1]; cases tt <;> rfl)
      | (rw [Gbq.encodeField.eq_2 _ _ (fun kvs h => Value.noConfusion h)]; cases tt <;> rfl)

/-- C5: encoding the string value "I" under a field with tag 123 and the
stringy table type `String` produces exactly the bytes
`DA 07 01 49`, and encoding the boolean `false` under tag 43 and type
`Bool` produces exactly `D8 02 00`. -/
theorem gbq_encode_examples :
    Gbq.encodeField (.str "I") (Gbq.Field.mk .string 123 []) = .ok [0xDA, 0x07, 0x01, 0x49]
    ∧ Gbq.encodeField (.bool false) (Gbq.Field.mk .bool 43 []) = .ok [0xD8, 0x02, 0x00] := by
  constructor
  · rw [encodeField_eq]
    have h1 : Gbq.utf8Bytes "I" = [73] := by decide
    have hv : Gbq.encodeVarint 986 = [0xDA, 0x07] := by
      rw [Gbq.encodeVarint]
      norm_num
      rw [Gbq.encodeVarint]
      norm_num
    have hv1 : Gbq.encodeVarint 1 = [1] := by
      rw [Gbq.encodeVarint]
      norm_num
    simp [Value.asStr, h1, Gbq.encodeKey, Gbq.wireLengthDelimited, hv, hv1]
  · rw [encodeField_eq]
    have hv : Gbq.encodeVarint 344 = [0xD8, 0x02] := by
      rw [Gbq.encodeVarint]
      norm_num
      rw [Gbq.encodeVarint]
      norm_num
    simp [Value.asBool, Gbq.encodeKey, Gbq.wireVarint, hv]

/-- Inversion for `Value::as_object`. -/
theorem asObject_eq_some {val : Value} {kvs : List (String × Value)}
    (h : val.asObject = some kvs) : val = .object kvs := by
  cases val <;> simp_all [Value.asObject]

/-- Every error produced by `encode_field` (and by the struct-fields
loop) is a `BigQueryTypeMismatch`, shown by strong induction on the size
of the encoded value. -/
theorem encode_error_shape :
    ∀ n : Nat,
      (∀ (v : Value) (f : Gbq.Field) (e : Gbq.ErrorKind), sizeOf v ≤ n →
        Gbq.encodeField v f = .error e → ∃ exp act, e = .bigQueryTypeMismatch exp act)
      ∧ (∀ (kvs : List (String × Value)) (subs : List (String × Gbq.Field))
          (e : Gbq.ErrorKind), sizeOf kvs ≤ n →
        Gbq.encodeStructFields kvs subs = .error e →
          ∃ exp act, e = .bigQueryTypeMismatch exp act) := by
  intro n
  induction n using Nat.strong_induction_on with
  | _ n ih =>
    constructor
    · intro v f e hsz h
      obtain ⟨tt, tag, subs⟩ := f
      rw [encodeField_eq] at h
      simp only [Gbq.Field.tableType_mk, Gbq.Field.tag_mk, Gbq.Field.subfields_mk] at h
      cases tt
      case struct =>
        cases hv : v.asObject with
        | none => simp [hv] at h; exact ⟨_, _, h.symm⟩
        | some kvs =>
          simp only [hv] at h
          cases hs : Gbq.encodeStructFields kvs subs with
          | ok b => simp [hs] at h
          | error e2 =>
            simp [hs] at h
            have hvv := asObject_eq_some hv
            subst hvv
            simp only [Value.object.sizeOf_spec] at hsz
            have hlt : sizeOf kvs < n := by omega
            obtain ⟨exp, act, hx⟩ := (ih _ hlt).2 kvs subs e2 le_rfl hs
            exact ⟨exp, act, h ▸ hx⟩
      case double =>
        cases hv : v.asF64 with
        | some x => simp [hv] at h
        | none => simp [hv] at h; exact ⟨_, _, h.symm⟩
      case int64 =>
        cases hv : v.asI64 with
        | some x => simp [hv] at h
        | none => simp [hv] at h; exact ⟨_, _, h.symm⟩
      case bool =>
        cases hv : v.asBool with
        | some x => simp [hv] at h
        | none => simp [hv] at h; exact ⟨_, _, h.symm⟩
      case bytes =>
        cases hv : v.asBytes with
        | some x => simp [hv] at h
        | none => simp [hv] at h; exact ⟨_, _, h.symm⟩
      case json => simp at h
      case interval => simp at h
      case unspecified => simp at h
      all_goals
        cases hv : v.asStr with
        | some x => simp [hv] at h
        | none => simp [hv] at h; exact ⟨_, _, h.symm⟩
    · intro kvs subs e hsz h
      cases kvs with
      | nil =>
        rw [Gbq.encodeStructFields.eq_1] at h
        exact absurd h (by simp)
      | cons kv rest =>
        obtain ⟨k, v⟩ := kv
        rw [Gbq.encodeStructFields.eq_2] at h
        simp only [List.cons.sizeOf_spec, Prod.mk.sizeOf_spec] at hsz
        cases hf : List.find? (fun p => decide (p.1 = k)) subs with
        | none =>
          simp only [hf] at h
          have hlt : sizeOf rest < n := by omega
          exact (ih _ hlt).2 rest subs e le_rfl h
        | some p =>
          simp only [hf] at h
          cases he1 : Gbq.encodeField v p.2 with
          | error e2 =>
            simp [he1] at h
            have hlt : sizeOf v < n := by omega
            obtain ⟨exp, act, hx⟩ := (ih _ hlt).1 v p.2 e2 le_rfl he1
            exact ⟨exp, act, h ▸ hx⟩
          | ok b =>
            simp only [he1] at h
            cases hs2 : Gbq.encodeStructFields rest subs with
            | ok r => simp [hs2] at h
            | error e2 =>
              simp [hs2] at h
              have hlt : sizeOf rest < n := by omega
              obtain ⟨exp, act, hx⟩ := (ih _ hlt).2 rest subs e2 le_rfl hs2
              exact ⟨exp, act, h ▸ hx⟩

/-- C6: for every scalar table type (Double, Int64, Bool, the string-like
types, Bytes), encoding a value whose semantic shape cannot be read for
that type returns a type-mismatch error carrying the expected kind name
and the actual kind of the value; a non-object top-level value fails the
same way; and no error other than a type mismatch is possible in this
layer. -/
theorem gbq_type_mismatch_errors :
    (∀ (v : Value) (tag : Nat) (subs : List (String × Gbq.Field)),
      (v.asF64 = none →
        Gbq.encodeField v (.mk .double tag subs) =
          .error (.bigQueryTypeMismatch "f64" v.valueType))
      ∧ (v.asI64 = none →
        Gbq.encodeField v (.mk .int64 tag subs) =
          .error (.bigQueryTypeMismatch "i64" v.valueType))
      ∧ (v.asBool = none →
        Gbq.encodeField v (.mk .bool tag subs) =
          .error (.bigQueryTypeMismatch "bool" v.valueType))
      ∧ (∀ t ∈ ([.string, .date, .time, .datetime, .timestamp,
            .numeric, .bignumeric, .geography] : List Gbq.TableType),
          v.asStr = none →
          Gbq.encodeField v (.mk t tag subs) =
            .error (.bigQueryTypeMismatch "string" v.valueType))
      ∧ (v.asBytes = none →
        Gbq.encodeField v (.mk .bytes tag subs) =
          .error (.bigQueryTypeMismatch "bytes" v.valueType)))
    ∧ (∀ (m : Gbq.JsonToProtobufMapping) (v : Value), v.asObject = none →
        m.map v = .error (.bigQueryTypeMismatch "object" v.valueType))
    ∧ (∀ (v : Value) (f : Gbq.Field) (e : Gbq.ErrorKind),
        Gbq.encodeField v f = .error e →
          ∃ exp act, e = .bigQueryTypeMismatch exp act)
    ∧ (∀ (m : Gbq.JsonToProtobufMapping) (v : Value) (e : Gbq.ErrorKind),
        m.map v = .error e → ∃ exp act, e = .bigQueryTypeMismatch exp act) := by
  refine ⟨?_, ?_, ?_, ?_⟩
  · intro v tag subs
    refine ⟨?_, ?_, ?_, ?_, ?_⟩
    · intro h; rw [encodeField_eq]; simp [h]
    · intro h; rw [encodeField_eq]; simp [h]
    · intro h; rw [encodeField_eq]; simp [h]
    · intro t ht h
      fin_cases ht <;> (rw [encodeField_eq]; simp [h])
    · intro h; rw [encodeField_eq]; simp [h]
  · intro m v h
    cases v <;> simp_all [Gbq.JsonToProtobufMapping.map, Value.asObject, Value.valueType]
  · intro v f e h
    exact (encode_error_shape (sizeOf v)).1 v f e le_rfl h
  · intro m v e h
    cases v
    case object kvs =>
      simp only [Gbq.JsonToProtobufMapping.map] at h
      exact (encode_error_shape (sizeOf kvs)).2 kvs m.fields e le_rfl h
    all_goals (simp [Gbq.JsonToProtobufMapping.map] at h; exact ⟨_, _, h.symm⟩)

/-- Witness for C6: a string value under a Double field, and a non-object
top-level value. -/
theorem gbq_type_mismatch_errors_witness :
    Gbq.encodeField (Value.str "x") (Gbq.Field.mk .double 1 []) =
      .error (.bigQueryTypeMismatch "f64" .string)
    ∧ Gbq.JsonToProtobufMapping.map
        ⟨[], Gbq.DescriptorProto.mk (some "table") [] []⟩ (Value.i64 3) =
      .error (.bigQueryTypeMismatch "object" .i64) := by
  have h := gbq_type_mismatch_errors
  exact ⟨(h.1 (Value.str "x") 1 []).1 rfl, h.2.1 _ (Value.i64 3) rfl⟩

/-- Witness for C10 at a concrete conflicting command list. -/
theorem cb_sink_conflict_precedence_witness :
    (CbSink.replyOf ["ack", "fail", "close", "open"]).ack = .ack
    ∧ (CbSink.replyOf ["ack", "fail", "close", "open"]).cb = .trigger := by
  have h := cb_sink_conflict_precedence ["ack", "fail", "close", "open"]
  exact ⟨h.1 (by simp) (by simp), h.2 (by simp) (by simp)⟩

end Tremor

namespace Tremor
namespace Http

/-- Reading a header map with one entry in front. -/
theorem getHeader_cons (k0 : String) (vs0 : List String) (rest : Headers) (n : String) :
    getHeader ((k0, vs0) :: rest) n =
      if normName k0 = normName n then vs0 else getHeader rest n := by
  by_cases h : normName k0 = normName n <;> simp [getHeader, List.find?_cons, h]

/-- Reading after `append_header`: the appended values land at the end
of the entry for that (case-insensitive) name and other names are
untouched. -/
theorem getHeader_appendHeader (hs : Headers) (k : String) (vs : List String) (n : String) :
    getHeader (appendHeader hs k vs) n =
      if normName n = normName k then getHeader hs n ++ vs
      else getHeader hs n := by
  induction hs with
  | nil =>
    by_cases h : normName n = normName k
    · simp [appendHeader, getHeader_cons, getHeader, h]
    · have h2 : ¬ normName k = normName n := fun hk => h hk.symm
      simp [appendHeader, getHeader_cons, getHeader, h, h2]
  | cons p rest ih =>
    obtain ⟨k0, vs0⟩ := p
    by_cases h0 : normName k0 = normName k
    · simp only [appendHeader, h0, if_pos]
      rw [getHeader_cons, getHeader_cons]
      by_cases hnk : normName n = normName k
      · simp [h0.trans hnk.symm, hnk]
      · have : ¬ normName k0 = normName n := fun hc => hnk (hc.symm.trans h0)
        simp [this, hnk]
    · simp only [appendHeader, h0, if_neg, not_false_iff]
      rw [getHeader_cons, getHeader_cons, ih]
      by_cases h1 : normName k0 = normName n
      · have : ¬ normName n = normName k := fun hc => h0 (h1.trans hc)
        simp [h1, this]
      · simp [h1]

/-- Reading after `insert_header`: the name now holds exactly the new
values and other names are untouched. -/
theorem getHeader_insertHeader (hs : Headers) (k : String) (vs : List String) (n : String) :
    getHeader (insertHeader hs k vs) n =
      if normName n = normName k then vs else getHeader hs n := by
  induction hs with
  | nil =>
    by_cases h : normName n = normName k
    · simp [insertHeader, getHeader_cons, getHeader, h]
    · have h2 : ¬ normName k = normName n := fun hk => h hk.symm
      simp [insertHeader, getHeader_cons, getHeader, h, h2]
  | cons p rest ih =>
    obtain ⟨k0, vs0⟩ := p
    by_cases h0 : normName k0 = normName k
    · simp only [insertHeader, h0, if_pos]
      rw [getHeader_cons, getHeader_cons]
      by_cases hnk : normName n = normName k
      · simp [h0.trans hnk.symm, hnk]
      · have : ¬ normName k0 = normName n := fun hc => hnk (hc.symm.trans h0)
        simp [this, hnk]
    · simp only [insertHeader, h0, if_neg, not_false_iff]
      rw [getHeader_cons, getHeader_cons, ih]
      by_cases h1 : normName k0 = normName n
      · have : ¬ normName n = normName k := fun hc => h0 (h1.trans hc)
        simp [h1, this]
      · simp [h1]

/-- Reading after `remove_header`: the name is empty and other names are
untouched. -/
theorem getHeader_removeHeader (hs : Headers) (k : String) (n : String) :
    getHeader (removeHeader hs k) n =
      if normName n = normName k then [] else getHeader hs n := by
  induction hs with
  | nil =>
    by_cases h : normName n = normName k <;> simp [removeHeader, getHeader, h]
  | cons p rest ih =>
    obtain ⟨k0, vs0⟩ := p
    simp only [removeHeader] at ih ⊢
    by_cases h0 : normName k0 = normName k
    · rw [List.filter_cons_of_neg (by simp [h0])]
      rw [ih]
      by_cases hnk : normName n = normName k
      · simp [hnk]
      · have : ¬ normName k0 = normName n := fun hc => hnk (hc.symm.trans h0)
        rw [getHeader_cons]
        simp [hnk, this]
    · rw [List.filter_cons_of_pos (by simp [h0])]
      rw [getHeader_cons, getHeader_cons, ih]
      by_cases h1 : normName k0 = normName n
      · have hn : ¬ normName n = normName k := fun hc => h0 (h1.trans hc)
        simp [h1, hn]
      · simp [h1]

end Http
end Tremor

namespace Tremor
namespace Http

/-- The config-header loop appends, per name, exactly the configured
values in configuration order. -/
theorem getHeader_applyConfigHeaders (cfgs : List (String × ConfigValues)) :
    ∀ (hs : Headers) (n : String),
      getHeader (applyConfigHeaders cfgs hs) n = getHeader hs n ++ configValuesFor cfgs n := by
  induction cfgs with
  | nil => intro hs n; simp [applyConfigHeaders, configValuesFor]
  | cons c rest ih =>
    intro hs n
    obtain ⟨k, cv⟩ := c
    simp only [applyConfigHeaders]
    rw [ih, getHeader_appendHeader]
    simp only [configValuesFor, List.flatMap_cons]
    by_cases h : normName n = normName k
    · rw [if_pos h, if_pos h.symm, List.append_assoc]
    · rw [if_neg h, if_neg (fun hk => h hk.symm), List.nil_append]

/-- The meta-header loop appends, per name, exactly the string values of
the meta entries in object order. -/
theorem getHeader_applyMetaEntries (entries : List (String × Value)) :
    ∀ (hs : Headers) (n : String),
      getHeader (applyMetaEntries entries hs) n = getHeader hs n ++ metaValuesFor entries n := by
  induction entries with
  | nil => intro hs n; simp [applyMetaEntries, metaValuesFor]
  | cons c rest ih =>
    intro hs n
    obtain ⟨k, v⟩ := c
    simp only [applyMetaEntries]
    cases hv : metaEntryVals v with
    | none =>
      rw [ih]
      simp only [metaValuesFor, List.flatMap_cons, hv]
      by_cases h : normName n = normName k
      · rw [if_pos h.symm]
        simp
      · rw [if_neg (fun hk => h hk.symm), List.nil_append]
    | some vals =>
      rw [ih, getHeader_appendHeader]
      simp only [metaValuesFor, List.flatMap_cons, hv]
      by_cases h : normName n = normName k
      · rw [if_pos h, if_pos h.symm]
        simp [List.append_assoc]
      · rw [if_neg h, if_neg (fun hk => h hk.symm), List.nil_append]

/-- After both loops a name holds the configured values followed by the
meta values. -/
theorem getHeader_mergedHeaders (config : ClientConfig) (meta : Option Value) (n : String) :
    getHeader (mergedHeaders config meta) n =
      configValuesFor config.headers n ++ metaValuesFor (metaHeadersObject meta) n := by
  unfold mergedHeaders
  rw [getHeader_applyMetaEntries, getHeader_applyConfigHeaders]
  simp [getHeader]

/-- `getHeader` only depends on the normalised name. -/
theorem getHeader_congr (hs : Headers) {n m : String} (h : normName n = normName m) :
    getHeader hs n = getHeader hs m := by
  simp [getHeader, h]

end Http
end Tremor

namespace Tremor
namespace Http

/-- Normalisation of the content-type name. -/
theorem normName_contentType : normName "content-type" = "content-type" := by decide

/-- The authorization and content-type names differ after normalisation. -/
theorem normName_auth_ne : normName "authorization" ≠ normName "content-type" := by decide

/-- The content-length and content-type names differ after normalisation. -/
theorem normName_clen_ne : normName "content-length" ≠ normName "content-type" := by decide

end Http
end Tremor

namespace Tremor

/-- C7 as amended: every request built from config headers and meta
`request.headers` whose config yields no auth header and which is not
chunked contains, per header name, the configured values followed by the
meta values with multiplicity (meta values are appended, never
override), configured values first; such a construction touches no
merged header except a possibly added content-type.  The unconditional
claim fails: with auth configured the `Authorization` insert replaces
configured authorization values, and under chunked encoding the
`Content-Length` removal deletes configured values (see the
counterexample below). -/
theorem http_header_merge (config : Http.ClientConfig) (meta : Option Value)
    (gcn gmt : String → Option String) (cc : String)
    (hauth : config.auth = none)
    (hchunk : Http.lastValue (Http.mergedHeaders config meta) "transfer-encoding" ≠
      some "chunked")
    (name : String) :
    ((Http.configValuesFor config.headers name ++
        Http.metaValuesFor (Http.metaHeadersObject meta) name) <+:
      Http.getHeader (Http.httpRequestBuilderNew config meta gcn gmt cc).headers name)
    ∧ (Http.normName name ≠ "content-type" →
        Http.getHeader (Http.httpRequestBuilderNew config meta gcn gmt cc).headers name =
          Http.configValuesFor config.headers name ++
            Http.metaValuesFor (Http.metaHeadersObject meta) name) := by
  have hbe : ((Http.lastValue (Http.mergedHeaders config meta) "transfer-encoding") ==
      some "chunked") = false := by
    rw [beq_eq_false_iff_ne]
    exact hchunk
  have hfinal : (Http.httpRequestBuilderNew config meta gcn gmt cc).headers =
      if (Http.lastValue (Http.mergedHeaders config meta) "content-type").isNone then
        Http.insertHeader (Http.mergedHeaders config meta) "content-type"
          [((Http.lastValue (Http.mergedHeaders config meta) "content-type").orElse
              (fun _ =>
                ((((Http.lastValue (Http.mergedHeaders config meta) "content-type").bind
                      (fun mime => gcn (Http.mimeEssence mime))).filter
                    (fun codec => codec ≠ cc)).bind gmt).orElse
                  (fun _ => gmt cc))).getD Http.byteStream]
      else Http.mergedHeaders config meta := by
    simp only [Http.httpRequestBuilderNew, hbe, hauth, Bool.false_eq_true, if_false]
  rw [hfinal]
  by_cases hct : (Http.lastValue (Http.mergedHeaders config meta) "content-type").isNone
  · rw [if_pos hct]
    have hnil : Http.getHeader (Http.mergedHeaders config meta) "content-type" = [] := by
      by_contra hne
      have hsome := List.getLast?_isSome.mpr hne
      simp only [Http.lastValue, Option.isNone_iff_eq_none] at hct
      rw [hct] at hsome
      simp at hsome
    constructor
    · by_cases hname : Http.normName name = "content-type"
      · rw [Http.getHeader_insertHeader, Http.normName_contentType, if_pos hname]
        have h0 : Http.getHeader (Http.mergedHeaders config meta) name =
            Http.getHeader (Http.mergedHeaders config meta) "content-type" :=
          Http.getHeader_congr _ (hname.trans Http.normName_contentType.symm)
        rw [← Http.getHeader_mergedHeaders, h0, hnil]
        exact List.nil_prefix
      · rw [Http.getHeader_insertHeader, Http.normName_contentType, if_neg hname,
          Http.getHeader_mergedHeaders]
    · intro hname
      rw [Http.getHeader_insertHeader, Http.normName_contentType, if_neg hname,
        Http.getHeader_mergedHeaders]
  · rw [if_neg hct]
    rw [Http.getHeader_mergedHeaders]
    exact ⟨List.prefix_refl _, fun _ => rfl⟩

end Tremor

namespace Tremor

/-- C8: the content type of a built request follows the precedence
explicit content-type header from the merged headers, else the MIME of
the override codec, else the MIME of the configured codec, else
application/octet-stream; and the per-request codec override used for
serialization is determined by the explicit content-type header (the
mapped codec when it differs from the configured one). -/
theorem http_content_type_precedence (config : Http.ClientConfig) (meta : Option Value)
    (gcn gmt : String → Option String) (cc : String) :
    ((Http.httpRequestBuilderNew config meta gcn gmt cc).codecOverwrite =
      ((Http.lastValue (Http.mergedHeaders config meta) "content-type").bind
          (fun mime => gcn (Http.mimeEssence mime))).filter (fun codec => codec ≠ cc))
    ∧ (Http.lastValue (Http.httpRequestBuilderNew config meta gcn gmt cc).headers
        "content-type" =
      some (((Http.lastValue (Http.mergedHeaders config meta) "content-type").orElse
          (fun _ =>
            ((((Http.lastValue (Http.mergedHeaders config meta) "content-type").bind
                  (fun mime => gcn (Http.mimeEssence mime))).filter
                (fun codec => codec ≠ cc)).bind gmt).orElse
              (fun _ => gmt cc))).getD Http.byteStream)) := by
  constructor
  · simp only [Http.httpRequestBuilderNew]
  · have hauthct : ∀ hs : Http.Headers,
        Http.lastValue
          (match config.auth with
            | some authHeader => Http.insertHeader hs "authorization" [authHeader]
            | none => hs) "content-type" = Http.lastValue hs "content-type" := by
      intro hs
      cases config.auth with
      | none => rfl
      | some a =>
        simp only [Http.lastValue, Http.getHeader_insertHeader]
        rw [if_neg (by decide)]
    have hchunkct : ∀ hs : Http.Headers, ∀ b : Bool,
        Http.lastValue (if b then Http.removeHeader hs "content-length" else hs)
          "content-type" = Http.lastValue hs "content-type" := by
      intro hs b
      cases b with
      | false => rfl
      | true =>
        simp only [if_true, Http.lastValue, Http.getHeader_removeHeader]
        rw [if_neg (by decide)]
    simp only [Http.httpRequestBuilderNew]
    rw [hchunkct, hauthct]
    by_cases hct : (Http.lastValue (Http.mergedHeaders config meta) "content-type").isNone
    · rw [if_pos hct]
      simp only [Http.lastValue, Http.getHeader_insertHeader, Http.normName_contentType,
        eq_self_iff_true, if_true, List.getLast?_singleton]
    · rw [if_neg hct]
      cases ho : Http.lastValue (Http.mergedHeaders config meta) "content-type" with
      | none => rw [ho] at hct; simp at hct
      | some v => rfl

end Tremor

namespace Tremor

/-- The serde struct-visitor loop fails whenever the record holds a key
that is not a declared field. -/
theorem configLoop_unknown (kvs : List (String × Value)) :
    ∀ (p : Option (Option String)) (t : Option Nat) (e : Option Bool)
      (k : String) (v : Value), (k, v) ∈ kvs →
      ¬(k = "path" ∨ k = "timeout" ∨ k = "expect_batched") →
      ∃ err, configLoop kvs p t e = .error err := by
  induction kvs with
  | nil => intro _ _ _ _ _ hmem _; cases hmem
  | cons kv rest ih =>
    intro p t e k v hmem hnk
    obtain ⟨k0, v0⟩ := kv
    have hrec : (k, v) = (k0, v0) ∨ (k, v) ∈ rest := List.mem_cons.mp hmem
    simp only [configLoop]
    by_cases h1 : k0 = "path"
    · rw [if_pos h1]
      by_cases hp : p.isSome
      · exact ⟨_, by rw [if_pos hp]⟩
      · rw [if_neg hp]
        cases hpv : parsePathField v0 with
        | none => exact ⟨_, rfl⟩
        | some pv =>
          rcases hrec with heq | hmem2
          · obtain ⟨rfl, rfl⟩ := Prod.mk.injEq .. ▸ And.intro (congrArg Prod.fst heq) (congrArg Prod.snd heq)
            exact absurd (Or.inl h1) hnk
          · exact ih _ _ _ _ _ hmem2 hnk
    · rw [if_neg h1]
      by_cases h2 : k0 = "timeout"
      · rw [if_pos h2]
        by_cases ht : t.isSome
        · exact ⟨_, by rw [if_pos ht]⟩
        · rw [if_neg ht]
          cases htv : parseU64Field v0 with
          | none => exact ⟨_, rfl⟩
          | some tv =>
            rcases hrec with heq | hmem2
            · obtain ⟨rfl, rfl⟩ := Prod.mk.injEq .. ▸ And.intro (congrArg Prod.fst heq) (congrArg Prod.snd heq)
              exact absurd (Or.inr (Or.inl h2)) hnk
            · exact ih _ _ _ _ _ hmem2 hnk
      · rw [if_neg h2]
        by_cases h3 : k0 = "expect_batched"
        · rw [if_pos h3]
          by_cases he : e.isSome
          · exact ⟨_, by rw [if_pos he]⟩
          · rw [if_neg he]
            cases hev : parseBoolField v0 with
            | none => exact ⟨_, rfl⟩
            | some ev =>
              rcases hrec with heq | hmem2
              · obtain ⟨rfl, rfl⟩ := Prod.mk.injEq .. ▸ And.intro (congrArg Prod.fst heq) (congrArg Prod.snd heq)
                exact absurd (Or.inr (Or.inr h3)) hnk
              · exact ih _ _ _ _ _ hmem2 hnk
        · rw [if_neg h3]
          exact ⟨_, rfl⟩

end Tremor

namespace Tremor

/-- The visitor loop leaves the `path` slot untouched when the record
has no `path` key. -/
theorem configLoop_no_path (kvs : List (String × Value)) :
    ∀ (p : Option (Option String)) (t : Option Nat) (e : Option Bool)
      (r : Option (Option String) × Option Nat × Option Bool),
      "path" ∉ kvs.map Prod.fst →
      configLoop kvs p t e = .ok r → r.1 = p := by
  induction kvs with
  | nil =>
    intro p t e r _ h
    simp only [configLoop] at h
    cases h
    rfl
  | cons kv rest ih =>
    intro p t e r hnp h
    obtain ⟨k0, v0⟩ := kv
    simp only [List.map_cons, List.mem_cons, not_or] at hnp
    obtain ⟨hnp0, hnprest⟩ := hnp
    simp only [configLoop] at h
    rw [if_neg (fun hc => hnp0 hc.symm)] at h
    by_cases h2 : k0 = "timeout"
    · rw [if_pos h2] at h
      by_cases ht : t.isSome
      · rw [if_pos ht] at h; cases h
      · rw [if_neg ht] at h
        cases htv : parseU64Field v0 with
        | none => rw [htv] at h; cases h
        | some tv =>
          rw [htv] at h
          exact ih _ _ _ _ (fun hc => absurd hc hnprest) h
    · rw [if_neg h2] at h
      by_cases h3 : k0 = "expect_batched"
      · rw [if_pos h3] at h
        by_cases he : e.isSome
        · rw [if_pos he] at h; cases h
        · rw [if_neg he] at h
          cases hev : parseBoolField v0 with
          | none => rw [hev] at h; cases h
          | some ev =>
            rw [hev] at h
            exact ih _ _ _ _ (fun hc => absurd hc hnprest) h
      · rw [if_neg h3] at h
        cases h

end Tremor

namespace Tremor

/-- C9: building the CB connector from a record with an undeclared key
fails (`deny_unknown_fields`); a record without a `path` key parses to a
config with no path, and `CbSource::new` on a path-less config returns
the typed definition error naming the connector alias and the missing
key. -/
theorem cb_config_validation :
    (∀ (kvs : List (String × Value)) (k : String) (v : Value),
      (k, v) ∈ kvs → k ∉ (["path", "timeout", "expect_batched"] : List String) →
      ∃ err, configNew (.object kvs) = .error err)
    ∧ (∀ (kvs : List (String × Value)) (cfg : CbConfig),
      "path" ∉ kvs.map Prod.fst → configNew (.object kvs) = .ok cfg →
      cfg.path = none)
    ∧ (∀ (cfg : CbConfig) (aliasName : String) (lines : List String),
      cfg.path = none →
      cbSourceNew cfg aliasName lines =
        .error (.invalidConnectorDefinition aliasName "Missing path key.")) := by
  refine ⟨?_, ?_, ?_⟩
  · intro kvs k v hmem hnk
    have hnk2 : ¬(k = "path" ∨ k = "timeout" ∨ k = "expect_batched") := by
      simpa using hnk
    obtain ⟨err, herr⟩ := configLoop_unknown kvs none none none k v hmem hnk2
    refine ⟨err, ?_⟩
    simp only [configNew, Value.asObject, herr]
  · intro kvs cfg hnp h
    simp only [configNew, Value.asObject] at h
    cases hloop : configLoop kvs none none none with
    | error err => rw [hloop] at h; cases h
    | ok r =>
      rw [hloop] at h
      have hp := configLoop_no_path kvs none none none r hnp hloop
      cases h
      simp [hp]
  · intro cfg aliasName lines h
    simp only [cbSourceNew, h]

/-- Witness for C9: a misspelled `paht` key fails to parse, and a
path-less config yields the named definition error. -/
theorem cb_config_validation_witness :
    (configNew (.object [("paht", .str "x")])).toBool = false
    ∧ cbSourceNew { path := none, timeout := defaultTimeout, expect_batched := false }
        "bench-cb" [] =
      .error (.invalidConnectorDefinition "bench-cb" "Missing path key.") := by
  constructor
  · obtain ⟨err, herr⟩ := cb_config_validation.1 [("paht", .str "x")] "paht" (.str "x")
      (List.mem_singleton.mpr rfl) (by decide)
    rw [herr]
    rfl
  · exact cb_config_validation.2.2 _ "bench-cb" [] rfl

end Tremor

namespace Tremor

/-- Counterexample to C7 as frozen: the claim is unconditional, but a
configured auth makes `insert_header(AUTHORIZATION, ..)` (meta.rs:146)
replace the configured `authorization` value, and a chunked request
makes `remove_header(CONTENT_LENGTH)` (meta.rs:154) delete the
configured `content-length` value, so the built request does not contain
every configured header value. -/
theorem http_header_merge_counterexample :
    (Http.getHeader (Http.httpRequestBuilderNew
        { headers := [("authorization", .one "cfg-token")], auth := some "Basic abc" }
        none (fun _ => none) (fun _ => none) "json").headers "authorization" =
      ["Basic abc"]
    ∧ "cfg-token" ∉ Http.getHeader (Http.httpRequestBuilderNew
        { headers := [("authorization", .one "cfg-token")], auth := some "Basic abc" }
        none (fun _ => none) (fun _ => none) "json").headers "authorization")
    ∧ (Http.getHeader (Http.httpRequestBuilderNew
        { headers := [("content-length", .one "42"), ("transfer-encoding", .one "chunked")],
          auth := none }
        none (fun _ => none) (fun _ => none) "json").headers "content-length" = []
    ∧ "42" ∉ Http.getHeader (Http.httpRequestBuilderNew
        { headers := [("content-length", .one "42"), ("transfer-encoding", .one "chunked")],
          auth := none }
        none (fun _ => none) (fun _ => none) "json").headers "content-length") := by
  decide

/-- Witness for C7: two configured `cake` values and one meta `cake`
value yield three entries. -/
theorem http_header_merge_witness :
    Http.getHeader (Http.httpRequestBuilderNew
        { headers := [("cake", .many ["black forst", "cheese"]), ("pie", .one "key lime")],
          auth := none }
        (some (.object [("request", .object [("headers",
          .object [("cake", .str "extra")])])]))
        (fun _ => none) (fun _ => none) "json").headers "cake" =
      ["black forst", "cheese", "extra"] := by
  have h := http_header_merge
    { headers := [("cake", .many ["black forst", "cheese"]), ("pie", .one "key lime")],
      auth := none }
    (some (.object [("request", .object [("headers",
      .object [("cake", .str "extra")])])]))
    (fun _ => none) (fun _ => none) "json" rfl (by decide) "cake"
  rw [h.2 (by decide)]
  decide

end Tremor
